import Mathlib

/-!
Shallow embedding of `gitignore_plugin.py` (sublime-gitignorer).

The plugin discovers git repositories reachable from the editor's open
folders, lists the paths git would ignore in each, and merges the derived
exclusion patterns into the stored pattern list, writing back only when the
pattern set actually changed.

Python strings are modelled as Lean `String` (a list of unicode scalar
values); raw subprocess output is modelled as `List Nat` (a byte sequence).
External effects (the filesystem seen by `os.walk` / `os.path.isdir`, the
exit codes and standard output of the `git` subprocesses, the editor's open
folders) are collected in an `Env` oracle that is fixed for one
synchronisation pass.  Code that can raise a Python exception is modelled
in `Except String`: a missing `git` executable makes `subprocess.call` /
`subprocess.Popen` raise `OSError`, and the normalizer's `assert` /
out-of-range index raise `AssertionError` / `IndexError`.
-/

/-- Whitespace characters recognised by CPython's `str.strip()` and
`str.isspace()` (Unicode whitespace). -/
def isPySpaceChar (c : Char) : Bool :=
  let n := c.toNat
  (0x09 ≤ n && n ≤ 0x0d) || n == 0x20 || (0x1c ≤ n && n ≤ 0x1f) ||
  n == 0x85 || n == 0xa0 || n == 0x1680 || (0x2000 ≤ n && n ≤ 0x200a) ||
  n == 0x2028 || n == 0x2029 || n == 0x202f || n == 0x205f || n == 0x3000

/-- Strip leading and trailing whitespace from a character list. -/
def stripL (cs : List Char) : List Char :=
  ((cs.dropWhile isPySpaceChar).reverse.dropWhile isPySpaceChar).reverse

/-- Python `s.strip()`. -/
def pyStrip (s : String) : String := ⟨stripL s.data⟩

/-- Python `s.isspace()`: true iff `s` is nonempty and all whitespace. -/
def pyIsSpace (s : String) : Bool := !s.data.isEmpty && s.data.all isPySpaceChar

/-- Python `s.split(sep)` for a one-character separator, on character
lists; empty parts are kept, and the result is always nonempty. -/
def splitOnCharL (sep : Char) : List Char → List (List Char)
  | [] => [[]]
  | c :: cs =>
    match splitOnCharL sep cs with
    | g :: gs => if c = sep then [] :: g :: gs else (c :: g) :: gs
    | [] => [[c]]

/-- Python `s.split(sep)` for a one-character separator. -/
def pySplitChar (sep : Char) (s : String) : List String :=
  (splitOnCharL sep s.data).map (fun g => ⟨g⟩)

/-- Python `s.replace(pat, repl, 1)` on character lists: only the first
occurrence of `pat` is replaced; a line with no occurrence is unchanged. -/
def replaceFirstL (pat repl : List Char) : List Char → List Char
  | [] => if pat.isEmpty then repl else []
  | c :: cs =>
    if pat.isPrefixOf (c :: cs) then repl ++ (c :: cs).drop pat.length
    else c :: replaceFirstL pat repl cs

/-- Python `s.replace(pat, repl, 1)`. -/
def pyReplaceFirst (s pat repl : String) : String :=
  ⟨replaceFirstL pat.data repl.data s.data⟩

/-- Python `s.rstrip('/')`: remove every trailing path separator. -/
def pyRstripSlash (s : String) : String :=
  ⟨(s.data.reverse.dropWhile (· == '/')).reverse⟩

/-- Python `s.startswith(pre)`. -/
def pyStartsWith (s pre : String) : Bool := pre.data.isPrefixOf s.data

/-- Python `s.endswith(post)`. -/
def pyEndsWith (s post : String) : Bool := post.data.reverse.isPrefixOf s.data.reverse

/-- POSIX `os.path.join` for two components. -/
def pyJoin (a b : String) : String :=
  if pyStartsWith b "/" then b
  else if a = "" || pyEndsWith a "/" then a ++ b
  else a ++ "/" ++ b

/-- POSIX `os.path.normpath`: collapse separators, remove `.` components,
resolve `..` components. -/
def pyNormpath (p : String) : String :=
  if p = "" then "." else
  let initialSlashes : Nat :=
    if pyStartsWith p "/" then
      if pyStartsWith p "//" && !pyStartsWith p "///" then 2 else 1
    else 0
  let comps := pySplitChar '/' p
  let newComps := comps.foldl (fun acc comp =>
    if comp = "" || comp = "." then acc
    else if comp ≠ ".." || (initialSlashes = 0 && acc = []) ||
            (acc ≠ [] && acc.getLast? = some "..") then acc ++ [comp]
    else if acc ≠ [] then acc.dropLast else acc) []
  let path := (⟨List.replicate initialSlashes '/'⟩ : String) ++
    String.intercalate "/" newComps
  if path = "" then "." else path

/-- POSIX `os.path.abspath` relative to the process working directory. -/
def pyAbspath (cwd p : String) : String :=
  pyNormpath (if pyStartsWith p "/" then p else pyJoin cwd p)

/-- Continuation-byte test for UTF-8 decoding. -/
def isUtf8Cont (b : Nat) : Bool := 0x80 ≤ b && b ≤ 0xbf

/-- Lower bound of the first continuation byte after a three-byte lead
(`0xe0` forbids overlong encodings). -/
def utf8Cont1Lo3 (b : Nat) : Nat := if b == 0xe0 then 0xa0 else 0x80

/-- Upper bound of the first continuation byte after a three-byte lead
(`0xed` forbids surrogates). -/
def utf8Cont1Hi3 (b : Nat) : Nat := if b == 0xed then 0x9f else 0xbf

/-- Lower bound of the first continuation byte after a four-byte lead
(`0xf0` forbids overlong encodings). -/
def utf8Cont1Lo4 (b : Nat) : Nat := if b == 0xf0 then 0x90 else 0x80

/-- Upper bound of the first continuation byte after a four-byte lead
(`0xf4` caps code points at `U+10FFFF`). -/
def utf8Cont1Hi4 (b : Nat) : Nat := if b == 0xf4 then 0x8f else 0xbf

/-- CPython UTF-8 decoding of a byte sequence, fuelled (each step consumes
at least one byte, so any fuel of at least the byte count is enough).  A
malformed sequence contributes `errRep` to the output and consumes its
maximal valid subpart (the lead byte together with the continuation bytes
that were in range), matching `bytes.decode('utf-8', errors)`:
`errors='ignore'` passes `errRep = []`, `errors='replace'` passes
`errRep = [U+FFFD]`. -/
def utf8DecodeGo (errRep : List Char) : Nat → List Nat → List Char
  | 0, _ => []
  | _, [] => []
  | fuel + 1, b :: bs =>
    if b < 0x80 then Char.ofNat b :: utf8DecodeGo errRep fuel bs
    else if 0xc2 ≤ b && b ≤ 0xdf then
      match bs with
      | [] => errRep
      | b1 :: bs1 =>
        if isUtf8Cont b1 then
          Char.ofNat ((b - 0xc0) * 0x40 + (b1 - 0x80)) :: utf8DecodeGo errRep fuel bs1
        else errRep ++ utf8DecodeGo errRep fuel bs
    else if 0xe0 ≤ b && b ≤ 0xef then
      match bs with
      | [] => errRep
      | b1 :: bs1 =>
        if utf8Cont1Lo3 b ≤ b1 && b1 ≤ utf8Cont1Hi3 b then
          match bs1 with
          | [] => errRep
          | b2 :: bs2 =>
            if isUtf8Cont b2 then
              Char.ofNat ((b - 0xe0) * 0x1000 + (b1 - 0x80) * 0x40 + (b2 - 0x80)) ::
                utf8DecodeGo errRep fuel bs2
            else errRep ++ utf8DecodeGo errRep fuel bs1
        else errRep ++ utf8DecodeGo errRep fuel bs
    else if 0xf0 ≤ b && b ≤ 0xf4 then
      match bs with
      | [] => errRep
      | b1 :: bs1 =>
        if utf8Cont1Lo4 b ≤ b1 && b1 ≤ utf8Cont1Hi4 b then
          match bs1 with
          | [] => errRep
          | b2 :: bs2 =>
            if isUtf8Cont b2 then
              match bs2 with
              | [] => errRep
              | b3 :: bs3 =>
                if isUtf8Cont b3 then
                  Char.ofNat ((b - 0xf0) * 0x40000 + (b1 - 0x80) * 0x1000 +
                      (b2 - 0x80) * 0x40 + (b3 - 0x80)) :: utf8DecodeGo errRep fuel bs3
                else errRep ++ utf8DecodeGo errRep fuel bs2
            else errRep ++ utf8DecodeGo errRep fuel bs1
        else errRep ++ utf8DecodeGo errRep fuel bs
    else errRep ++ utf8DecodeGo errRep fuel bs

/-- CPython UTF-8 decoding of a byte sequence; see `utf8DecodeGo`. -/
def utf8DecodeWith (errRep : List Char) (bytes : List Nat) : List Char :=
  utf8DecodeGo errRep bytes.length bytes

/-- Python `bytes.decode('utf-8', 'ignore')`: invalid sequences are
dropped. -/
def utf8DecodeIgnore (bytes : List Nat) : String := ⟨utf8DecodeWith [] bytes⟩

/-- Python `bytes.decode('utf-8', 'replace')`: invalid sequences are
replaced by `U+FFFD`. -/
def utf8DecodeReplace (bytes : List Nat) : String :=
  ⟨utf8DecodeWith [Char.ofNat 0xfffd] bytes⟩

/-- ASCII bytes of a string; used to build concrete subprocess outputs. -/
def asciiEncode (s : String) : List Nat := s.data.map Char.toNat

/-- Python `set.update(ps)` on a set represented as a duplicate-free list
in insertion order. -/
def pySetUpdate (acc ps : List String) : List String :=
  ps.foldl (fun a p => if p ∈ a then a else a ++ [p]) acc

/-- Python `set(l)` represented as a duplicate-free list in first-occurrence
order. -/
def pyDedup (l : List String) : List String := pySetUpdate [] l

/-- Python `set(a) == set(b)`: equality of the underlying string sets. -/
def pySetEq (a b : List String) : Bool :=
  a.all (fun x => decide (x ∈ b)) && b.all (fun x => decide (x ∈ a))

/-- Environment oracle for one synchronisation pass: the platform, whether
the `git` executable can be spawned, the editor's open folders, the set of
existing directories (`os.walk` and `os.path.isdir` read it), and the
observable behaviour of the three git queries, each keyed by the working
directory the subprocess is started in. -/
structure Env where
  isWindows : Bool
  gitAvailable : Bool
  openFolders : List String
  fs : List String
  insideWorkTree : String → Bool
  toplevelOut : String → String
  cleanOut : String → List Nat
  cwd : String

/-- Directories yielded by `os.walk(folder)`: every existing directory that
is `folder` itself or lies strictly below it.  `os.walk` performs a full
top-down traversal; nothing is pruned. -/
def osWalkRoots (fs : List String) (folder : String) : List String :=
  fs.filter (fun d => d == folder || pyStartsWith d (folder ++ "/"))

/-- Embedding of `find_git_repos`: the walked directories that directly
contain a `.git` subdirectory. -/
def find_git_repos (fs : List String) (folder : String) : List String :=
  (osWalkRoots fs folder).filter (fun d => decide ((d ++ "/.git") ∈ fs))

/-- Modelled from the spec: the walk the spec describes for
`FindReposUnder`, which "must not descend into the marker subdirectory
itself" — a directory is visited only when no component of its path
relative to `folder` is `.git`. -/
def osWalkRootsPruned (fs : List String) (folder : String) : List String :=
  (osWalkRoots fs folder).filter (fun d =>
    if d == folder then true
    else !(splitOnCharL '/' (d.data.drop (folder.data.length + 1))).contains ".git".data)

/-- Modelled from the spec: `FindReposUnder` with the spec's pruned walk,
to be compared with `find_git_repos` from the source. -/
def find_git_repos_spec (fs : List String) (folder : String) : List String :=
  (osWalkRootsPruned fs folder).filter (fun d => decide ((d ++ "/.git") ∈ fs))

/-- Embedding of `is_in_git_repo`: `subprocess.call` raises `OSError` when
`git` cannot be spawned; otherwise the function returns whether
`git rev-parse --is-inside-work-tree` exited with code 0. -/
def is_in_git_repo (env : Env) (folder : String) : Except String Bool :=
  if env.gitAvailable then .ok (env.insideWorkTree folder)
  else .error "OSError: git executable not found"

/-- Embedding of `parent_repo_path`: the stripped standard output of
`git rev-parse --show-toplevel`, passed through `os.path.abspath`.
`subprocess.Popen` raises `OSError` when `git` cannot be spawned.  The
oracle yields the already-decoded output stream (the source decodes it with
`errors='ignore'`); `os.path.abspath` is modelled for POSIX, the platform
of every path in the claims. -/
def parent_repo_path (env : Env) (folder : String) : Except String String :=
  if env.gitAvailable then .ok (pyAbspath env.cwd (pyStrip (env.toplevelOut folder)))
  else .error "OSError: git executable not found"

/-- Per-line processing of `repo_ignored_paths`: strip the first occurrence
of the literal `"Would remove "`, strip trailing `/`, resolve against the
repository path. -/
def parseCleanLine (git_repo line : String) : String :=
  pyJoin git_repo (pyRstripSlash (pyReplaceFirst line "Would remove " ""))

/-- Embedding of `repo_ignored_paths`: decode the output of
`git clean -ndX` as UTF-8 with invalid bytes dropped, return `[]` for empty
or whitespace-only output, otherwise strip the whole output, split on
newlines and process each line.  `subprocess.Popen` raises `OSError` when
`git` cannot be spawned. -/
def repo_ignored_paths (env : Env) (git_repo : String) : Except String (List String) :=
  if env.gitAvailable then
    let out := utf8DecodeIgnore (env.cleanOut git_repo)
    if pyIsSpace out || out == "" then .ok []
    else .ok ((pySplitChar '\n' (pyStrip out)).map (parseCleanLine git_repo))
  else .error "OSError: git executable not found"

/-- Modelled from the spec for claim C7's decode clause: the same pipeline
as `repo_ignored_paths` but decoding "as UTF-8 (invalid bytes replaced)",
to be compared with the source's decode. -/
def repo_ignored_paths_replace (env : Env) (git_repo : String) :
    Except String (List String) :=
  if env.gitAvailable then
    let out := utf8DecodeReplace (env.cleanOut git_repo)
    if pyIsSpace out || out == "" then .ok []
    else .ok ((pySplitChar '\n' (pyStrip out)).map (parseCleanLine git_repo))
  else .error "OSError: git executable not found"

/-- Embedding of `windows_path_to_sublime_path`: assert that the second
character is the drive separator, drop it, and turn every backslash into a
forward slash.  A string shorter than two characters makes `path[1]` raise
`IndexError`; a second character other than `:` fails the assert. -/
def windows_path_to_sublime_path (path : String) : Except String String :=
  match path.data with
  | c0 :: c1 :: rest =>
    if c1 = ':' then .ok ⟨(c0 :: rest).map (fun c => if c = '\\' then '/' else c)⟩
    else .error "AssertionError"
  | _ => .error "IndexError: string index out of range"

/-- Platform dispatch inside the update loop of
`update_file_exclude_patterns`: on Windows convert the path to Sublime
format, elsewhere leave it unchanged. -/
def normalizeStep (env : Env) (path : String) : Except String String :=
  if env.isWindows then windows_path_to_sublime_path path else .ok path

/-- Total description of the successful result of `normalizeStep` (second
character dropped on Windows, backslashes to slashes), used in theorem
statements. -/
def sublimeFormat (isWin : Bool) (path : String) : String :=
  if isWin then
    match path.data with
    | c0 :: _ :: rest => ⟨(c0 :: rest).map (fun c => if c = '\\' then '/' else c)⟩
    | l => ⟨l.map (fun c => if c = '\\' then '/' else c)⟩
  else path

/-- Loop body of `update_file_exclude_patterns`: for each ignored path,
test `os.path.isdir`, normalize for the platform, and append — a directory
contributes the bare path and the path with a wildcard suffix to the
`folder_exclude_patterns` accumulator, a file contributes the bare path to
the `file_exclude_patterns` accumulator. -/
def processPaths (env : Env) : List String → List String × List String →
    Except String (List String × List String)
  | [], acc => .ok acc
  | path :: ps, (files, folders) =>
    let isDirectory := decide (path ∈ env.fs)
    match normalizeStep env path with
    | .error e => .error e
    | .ok p =>
      if isDirectory then
        processPaths env ps (files, folders ++ [p, p ++ "/*"])
      else
        processPaths env ps (files ++ [p], folders)

/-- Union loop over repositories inside `folder_ignored_paths`:
`all_ignored_paths.update(repo_ignored_paths(git_repo))`. -/
def unionIgnored (env : Env) : List String → List String → Except String (List String)
  | [], acc => .ok acc
  | repo :: rs, acc =>
    match repo_ignored_paths env repo with
    | .error e => .error e
    | .ok ps => unionIgnored env rs (pySetUpdate acc ps)

/-- Embedding of `folder_ignored_paths`: the repositories contained in the
folder, plus the enclosing repository when the folder lies inside one, and
the deduplicated union of their ignored paths. -/
def folder_ignored_paths (env : Env) (folder : String) : Except String (List String) :=
  let repos0 := pyDedup (find_git_repos env.fs folder)
  match is_in_git_repo env folder with
  | .error e => .error e
  | .ok inRepo =>
    if inRepo then
      match parent_repo_path env folder with
      | .error e => .error e
      | .ok parent =>
        unionIgnored env (if parent ∈ repos0 then repos0 else repos0 ++ [parent]) []
    else unionIgnored env repos0 []

/-- Union loop over open folders inside `all_ignored_paths`. -/
def unionFolders (env : Env) : List String → List String → Except String (List String)
  | [], acc => .ok acc
  | f :: rest, acc =>
    match folder_ignored_paths env f with
    | .error e => .error e
    | .ok ps => unionFolders env rest (pySetUpdate acc ps)

/-- Embedding of `all_ignored_paths`: the deduplicated union of the ignored
paths of every open folder. -/
def all_ignored_paths (env : Env) : Except String (List String) :=
  unionFolders env (pyDedup env.openFolders) []

/-- Embedding of `update_file_exclude_patterns`.  Both local pattern lists
start from the stored `binary_file_patterns` value; the loop appends the
derived patterns; then the set of the file-pattern list is compared with
the stored set, and only on a difference is the file-pattern list persisted
(the folder-pattern accumulator is a local that is never written back).
The result is the stored list after the pass together with whether a save
happened. -/
def update_file_exclude_patterns (env : Env) (stored : List String) :
    Except String (List String × Bool) :=
  match all_ignored_paths env with
  | .error e => .error e
  | .ok paths =>
    match processPaths env paths (stored, stored) with
    | .error e => .error e
    | .ok (filePatterns, _folderPatterns) =>
      if !pySetEq filePatterns stored then .ok (filePatterns, true)
      else .ok (stored, false)

/-- Character list of several lines joined by newlines; used to build
concrete subprocess outputs. -/
def intercalateNL : List (List Char) → List Char
  | [] => []
  | [g] => g
  | g :: gs => g ++ '\n' :: intercalateNL gs

/-- Newline-joined lines as a string. -/
def joinLines (ls : List String) : String := ⟨intercalateNL (ls.map String.data)⟩

/-- Scenario of the spec's `Directory expansion` test: one watched root
`/work/app` holding a nested repository `/work/app/lib` whose ignored set
is the directory `/work/app/lib/build` and the file
`/work/app/lib/out.log`; `git clean -ndX` reports the directory with a
trailing separator. -/
def envScenario : Env :=
  { isWindows := false
    gitAvailable := true
    openFolders := ["/work/app"]
    fs := ["/work/app", "/work/app/lib", "/work/app/lib/.git", "/work/app/lib/build"]
    insideWorkTree := fun _ => false
    toplevelOut := fun _ => ""
    cleanOut := fun r => if r = "/work/app/lib" then
      asciiEncode "Would remove build/\nWould remove out.log\n" else []
    cwd := "/" }

/-- Environment with the `git` executable missing and one open folder. -/
def envNoGit : Env :=
  { isWindows := false
    gitAvailable := false
    openFolders := ["/p"]
    fs := ["/p"]
    insideWorkTree := fun _ => false
    toplevelOut := fun _ => ""
    cleanOut := fun _ => []
    cwd := "/" }

/-- Environment where `git` spawns but every query exits nonzero and no
marker directory exists under the open folder. -/
def envGitFails : Env :=
  { isWindows := false
    gitAvailable := true
    openFolders := ["/p"]
    fs := ["/p"]
    insideWorkTree := fun _ => false
    toplevelOut := fun _ => ""
    cleanOut := fun _ => []
    cwd := "/" }

/-- Two watched roots `/repo/a` and `/repo/b`, both inside the enclosing
repository `/repo`, whose ignored set is the directory `/repo/build` and
the file `/repo/out.log`. -/
def envTwoRoots : Env :=
  { isWindows := false
    gitAvailable := true
    openFolders := ["/repo/a", "/repo/b"]
    fs := ["/repo", "/repo/a", "/repo/b", "/repo/build"]
    insideWorkTree := fun f => f == "/repo/a" || f == "/repo/b"
    toplevelOut := fun _ => "/repo\n"
    cleanOut := fun r => if r = "/repo" then
      asciiEncode "Would remove build/\nWould remove out.log\n" else []
    cwd := "/" }

/-- One repository at `/r` whose ignored set is the two files `/r/q` and
`/r/s`; used with a stored pattern list that already holds `/r/q`. -/
def envDup : Env :=
  { isWindows := false
    gitAvailable := true
    openFolders := ["/r"]
    fs := ["/r", "/r/.git"]
    insideWorkTree := fun _ => false
    toplevelOut := fun _ => ""
    cleanOut := fun r => if r = "/r" then asciiEncode "Would remove q\nWould remove s\n" else []
    cwd := "/" }

/-- One repository at `/r` whose ignored set is the single file
`/r/a.log`; used with a stored pattern list holding one unrelated entry. -/
def envOneFile : Env :=
  { isWindows := false
    gitAvailable := true
    openFolders := ["/r"]
    fs := ["/r", "/r/.git"]
    insideWorkTree := fun _ => false
    toplevelOut := fun _ => ""
    cleanOut := fun r => if r = "/r" then asciiEncode "Would remove a.log\n" else []
    cwd := "/" }

/-- Environment whose `git clean` output is the single invalid byte
`0xff` for every repository. -/
def envBadByte : Env :=
  { isWindows := false
    gitAvailable := true
    openFolders := []
    fs := []
    insideWorkTree := fun _ => false
    toplevelOut := fun _ => ""
    cleanOut := fun _ => [0xff]
    cwd := "/" }

/-- Environment whose `git clean` output encodes two ignored entries, a
directory `build/` and a file `out.log`, for every repository. -/
def envTwoLines : Env :=
  { isWindows := false
    gitAvailable := true
    openFolders := []
    fs := []
    insideWorkTree := fun _ => false
    toplevelOut := fun _ => ""
    cleanOut := fun _ => asciiEncode (joinLines ["Would remove build/", "Would remove out.log"])
    cwd := "/" }

/-- POSIX-platform environment with no repositories. -/
def envPosix : Env :=
  { isWindows := false
    gitAvailable := true
    openFolders := []
    fs := []
    insideWorkTree := fun _ => false
    toplevelOut := fun _ => ""
    cleanOut := fun _ => []
    cwd := "/" }

/-- Windows-platform environment with no repositories. -/
def envWin : Env :=
  { isWindows := true
    gitAvailable := true
    openFolders := []
    fs := []
    insideWorkTree := fun _ => false
    toplevelOut := fun _ => ""
    cleanOut := fun _ => []
    cwd := "C:\\" }

/-- Directory set with a `.git` directory that itself contains a directory
`x` holding another `.git` marker. -/
def fsNestedMarker : List String := ["/r", "/r/.git", "/r/.git/x", "/r/.git/x/.git"]
-- Helper lemmas shared by the claim theorems.

theorem pySetEq_refl (a : List String) : pySetEq a a = true := by
  simp [pySetEq, List.all_eq_true]

theorem pySetEq_append_of_subset (a d : List String) (hd : ∀ x ∈ d, x ∈ a) :
    pySetEq (a ++ d) a = true := by
  simp only [pySetEq, Bool.and_eq_true, List.all_eq_true, decide_eq_true_eq]
  constructor
  · intro x hx
    rcases List.mem_append.1 hx with h | h
    · exact h
    · exact hd x h
  · intro x hx
    exact List.mem_append_left _ hx

theorem processPaths_shift (env : Env) (ps : List String) :
    ∀ files folders, processPaths env ps (files, folders) =
      match processPaths env ps ([], []) with
      | .ok (df, dfo) => .ok (files ++ df, folders ++ dfo)
      | .error e => .error e := by
  induction ps with
  | nil => intro files folders; simp [processPaths]
  | cons p ps ih =>
    intro files folders
    simp only [processPaths]
    cases h : normalizeStep env p with
    | error e => rfl
    | ok q =>
      simp only [decide_eq_true_eq]
      by_cases hd : p ∈ env.fs
      · rw [if_pos hd, if_pos hd]
        rw [ih files (folders ++ [q, q ++ "/*"]), ih [] ([] ++ [q, q ++ "/*"])]
        cases processPaths env ps ([], []) with
        | error e => rfl
        | ok r =>
          obtain ⟨df, dfo⟩ := r
          simp [List.append_assoc]
      · rw [if_neg hd, if_neg hd]
        rw [ih (files ++ [q]) folders, ih ([] ++ [q]) []]
        cases processPaths env ps ([], []) with
        | error e => rfl
        | ok r =>
          obtain ⟨df, dfo⟩ := r
          simp [List.append_assoc]

theorem update_of_err (env : Env) (stored : List String) (e : String)
    (hA : all_ignored_paths env = .error e) :
    update_file_exclude_patterns env stored = .error e := by
  unfold update_file_exclude_patterns
  rw [hA]

theorem update_of_perr (env : Env) (stored paths : List String) (e : String)
    (hA : all_ignored_paths env = .ok paths)
    (hP : processPaths env paths ([], []) = .error e) :
    update_file_exclude_patterns env stored = .error e := by
  unfold update_file_exclude_patterns
  rw [hA]
  simp only []
  rw [processPaths_shift, hP]

theorem update_of_ok (env : Env) (stored paths df dfo : List String)
    (hA : all_ignored_paths env = .ok paths)
    (hP : processPaths env paths ([], []) = .ok (df, dfo)) :
    update_file_exclude_patterns env stored =
      if !pySetEq (stored ++ df) stored then .ok (stored ++ df, true)
      else .ok (stored, false) := by
  unfold update_file_exclude_patterns
  rw [hA]
  simp only []
  rw [processPaths_shift, hP]

theorem normalizeStep_ok (env : Env) (p q : String) (h : normalizeStep env p = .ok q) :
    q = sublimeFormat env.isWindows p := by
  unfold normalizeStep at h
  unfold sublimeFormat
  by_cases hw : env.isWindows = true
  · rw [if_pos hw] at h
    rw [hw]
    simp only [if_true]
    unfold windows_path_to_sublime_path at h
    cases hd : p.data with
    | nil => rw [hd] at h; cases h
    | cons c0 t =>
      cases t with
      | nil => rw [hd] at h; cases h
      | cons c1 rest =>
        rw [hd] at h
        simp only [] at h
        by_cases hc : c1 = ':'
        · rw [if_pos hc] at h
          injection h with h
          exact h.symm
        · rw [if_neg hc] at h
          cases h
  · rw [if_neg hw] at h
    rw [Bool.not_eq_true] at hw
    rw [hw]
    simp only [Bool.false_eq_true, if_false]
    injection h with h
    exact h.symm

theorem processPaths_files_eq (env : Env) :
    ∀ ps df dfo, processPaths env ps ([], []) = .ok (df, dfo) →
      df = (ps.filter (fun p => !decide (p ∈ env.fs))).map (sublimeFormat env.isWindows) := by
  intro ps
  induction ps with
  | nil =>
    intro df dfo h
    simp only [processPaths, Except.ok.injEq, Prod.mk.injEq] at h
    obtain ⟨h1, _⟩ := h
    simp [← h1]
  | cons p ps ih =>
    intro df dfo h
    simp only [processPaths] at h
    cases hn : normalizeStep env p with
    | error e => rw [hn] at h; cases h
    | ok q =>
      rw [hn] at h
      have hq := normalizeStep_ok env p q hn
      simp only [decide_eq_true_eq] at h
      by_cases hd : p ∈ env.fs
      · rw [if_pos hd] at h
        rw [processPaths_shift] at h
        cases hP : processPaths env ps ([], []) with
        | error e => rw [hP] at h; cases h
        | ok r =>
          obtain ⟨df0, dfo0⟩ := r
          rw [hP] at h
          simp only [List.nil_append, Except.ok.injEq, Prod.mk.injEq] at h
          obtain ⟨h1, _⟩ := h
          have hfilter : (p :: ps).filter (fun p => !decide (p ∈ env.fs)) =
              ps.filter (fun p => !decide (p ∈ env.fs)) := by
            simp [List.filter_cons, hd]
          rw [hfilter, ← ih df0 dfo0 hP, ← h1]
      · rw [if_neg hd] at h
        rw [processPaths_shift] at h
        cases hP : processPaths env ps ([], []) with
        | error e => rw [hP] at h; cases h
        | ok r =>
          obtain ⟨df0, dfo0⟩ := r
          rw [hP] at h
          simp only [List.nil_append, Except.ok.injEq, Prod.mk.injEq] at h
          obtain ⟨h1, _⟩ := h
          have hfilter : (p :: ps).filter (fun p => !decide (p ∈ env.fs)) =
              p :: ps.filter (fun p => !decide (p ∈ env.fs)) := by
            simp [List.filter_cons, hd]
          rw [hfilter, List.map_cons, ← ih df0 dfo0 hP, ← h1, ← hq]
          rfl

theorem foldl_update_ne_nil :
    ∀ (l acc : List String), acc ≠ [] →
      l.foldl (fun a p => if p ∈ a then a else a ++ [p]) acc ≠ [] := by
  intro l
  induction l with
  | nil => intro acc h; exact h
  | cons p l ih =>
    intro acc h
    simp only [List.foldl_cons]
    by_cases hp : p ∈ acc
    · rw [if_pos hp]; exact ih acc h
    · rw [if_neg hp]; exact ih _ (by simp)

theorem pyDedup_ne_nil (l : List String) (h : l ≠ []) : pyDedup l ≠ [] := by
  cases l with
  | nil => exact absurd rfl h
  | cons x xs =>
    unfold pyDedup pySetUpdate
    simp only [List.foldl_cons]
    rw [if_neg (List.not_mem_nil x)]
    exact foldl_update_ne_nil xs ([] ++ [x]) (by simp)

theorem folder_ignored_err (env : Env) (f : String) (hg : env.gitAvailable = false) :
    folder_ignored_paths env f = .error "OSError: git executable not found" := by
  unfold folder_ignored_paths is_in_git_repo
  rw [hg]
  simp

theorem folder_ignored_empty (env : Env) (f : String)
    (hg : env.gitAvailable = true)
    (hw : env.insideWorkTree f = false)
    (hr : find_git_repos env.fs f = []) :
    folder_ignored_paths env f = .ok [] := by
  unfold folder_ignored_paths is_in_git_repo
  rw [if_pos hg, hr, hw]
  simp only [Bool.false_eq_true, if_false]
  rfl

theorem unionFolders_err_head (env : Env) (f : String) (rest acc : List String) (e : String)
    (hf : folder_ignored_paths env f = .error e) :
    unionFolders env (f :: rest) acc = .error e := by
  simp only [unionFolders]
  rw [hf]

theorem unionFolders_empty (env : Env) :
    ∀ (l acc : List String), (∀ f ∈ l, folder_ignored_paths env f = .ok []) →
      unionFolders env l acc = .ok acc := by
  intro l
  induction l with
  | nil => intro acc _; rfl
  | cons f l ih =>
    intro acc hf
    simp only [unionFolders]
    rw [hf f (List.mem_cons_self f l)]
    exact ih acc (fun g hg => hf g (List.mem_cons_of_mem f hg))

theorem stringMk_data (s : String) : (⟨s.data⟩ : String) = s := rfl

theorem utf8DecodeGo_ascii (errRep : List Char) :
    ∀ (fuel : Nat) (cs : List Char), cs.length ≤ fuel →
      (∀ c ∈ cs, c.toNat < 0x80) →
      utf8DecodeGo errRep fuel (cs.map Char.toNat) = cs := by
  intro fuel
  induction fuel with
  | zero =>
    intro cs hl _
    rw [List.length_eq_zero.1 (Nat.le_zero.1 hl)]
    rfl
  | succ n ih =>
    intro cs hl hascii
    cases cs with
    | nil => rfl
    | cons c t =>
      simp only [List.map_cons, utf8DecodeGo]
      rw [if_pos (hascii c (List.mem_cons_self c t))]
      rw [Char.ofNat_toNat]
      rw [ih t (by simpa using Nat.le_of_succ_le_succ (by simpa using hl))
        (fun x hx => hascii x (List.mem_cons_of_mem c hx))]

theorem utf8DecodeWith_ascii (errRep : List Char) (cs : List Char)
    (hascii : ∀ c ∈ cs, c.toNat < 0x80) :
    utf8DecodeWith errRep (cs.map Char.toNat) = cs := by
  unfold utf8DecodeWith
  rw [List.length_map]
  exact utf8DecodeGo_ascii errRep cs.length cs (Nat.le_refl _) hascii

theorem splitOnCharL_ne_nil (sep : Char) : ∀ cs, splitOnCharL sep cs ≠ [] := by
  intro cs
  induction cs with
  | nil => simp [splitOnCharL]
  | cons c t ih =>
    simp only [splitOnCharL]
    cases h : splitOnCharL sep t with
    | nil => simp
    | cons g gs => by_cases hc : c = sep <;> simp [hc]

theorem splitOnCharL_no_sep (sep : Char) :
    ∀ cs, sep ∉ cs → splitOnCharL sep cs = [cs] := by
  intro cs
  induction cs with
  | nil => intro _; rfl
  | cons c t ih =>
    intro h
    have hc : c ≠ sep := fun hc => h (hc ▸ List.mem_cons_self c t)
    have ht : sep ∉ t := fun ht => h (List.mem_cons_of_mem c ht)
    simp only [splitOnCharL, ih ht]
    rw [if_neg hc]

theorem splitOnCharL_append_sep (sep : Char) :
    ∀ (g rest : List Char), sep ∉ g →
      splitOnCharL sep (g ++ sep :: rest) = g :: splitOnCharL sep rest := by
  intro g
  induction g with
  | nil =>
    intro rest _
    simp only [List.nil_append, splitOnCharL]
    cases h : splitOnCharL sep rest with
    | nil => exact absurd h (splitOnCharL_ne_nil sep rest)
    | cons x xs => simp
  | cons c g ih =>
    intro rest h
    have hc : c ≠ sep := fun hc => h (hc ▸ List.mem_cons_self c g)
    have hg : sep ∉ g := fun hg => h (List.mem_cons_of_mem c hg)
    show splitOnCharL sep (c :: (g ++ sep :: rest)) = (c :: g) :: splitOnCharL sep rest
    simp only [splitOnCharL, List.append_eq]
    rw [ih rest hg]
    simp [hc]

theorem splitOnCharL_intercalateNL :
    ∀ gs : List (List Char), gs ≠ [] → (∀ g ∈ gs, '\n' ∉ g) →
      splitOnCharL '\n' (intercalateNL gs) = gs := by
  intro gs
  induction gs with
  | nil => intro h _; exact absurd rfl h
  | cons g gs ih =>
    intro _ hnl
    cases gs with
    | nil =>
      show splitOnCharL '\n' (intercalateNL [g]) = [g]
      simp only [intercalateNL]
      exact splitOnCharL_no_sep '\n' g (hnl g (List.mem_cons_self g []))
    | cons g' gs' =>
      show splitOnCharL '\n' (g ++ '\n' :: intercalateNL (g' :: gs')) = g :: g' :: gs'
      rw [splitOnCharL_append_sep '\n' g _ (hnl g (List.mem_cons_self g _))]
      rw [ih (by simp) (fun x hx => hnl x (List.mem_cons_of_mem g hx))]

theorem intercalateNL_cons_head (g : List Char) (gs : List (List Char)) (c : Char)
    (t : List Char) (hg : g = c :: t) : ∃ u, intercalateNL (g :: gs) = c :: u := by
  cases gs with
  | nil => exact ⟨t, by simp [intercalateNL, hg]⟩
  | cons g' gs' => exact ⟨t ++ '\n' :: intercalateNL (g' :: gs'), by simp [intercalateNL, hg]⟩

theorem intercalateNL_getLast (g : List Char) (hg : g ≠ []) :
    ∀ gs : List (List Char), (intercalateNL (gs ++ [g])).getLast? = g.getLast? := by
  intro gs
  induction gs with
  | nil => rfl
  | cons g' gs' ih =>
    obtain ⟨h, t, hsplit⟩ : ∃ h t, gs' ++ [g] = h :: t := by
      cases hs : gs' ++ [g] with
      | nil => exact absurd hs (by simp)
      | cons h t => exact ⟨h, t, rfl⟩
    show (intercalateNL (g' :: (gs' ++ [g]))).getLast? = g.getLast?
    rw [hsplit]
    show (g' ++ '\n' :: intercalateNL (h :: t)).getLast? = g.getLast?
    rw [← hsplit]
    obtain ⟨y, hy⟩ : ∃ y, g.getLast? = some y := by
      cases hgl : g.getLast? with
      | none => exact absurd (List.getLast?_eq_none_iff.1 hgl) hg
      | some y => exact ⟨y, rfl⟩
    rw [List.getLast?_append]
    rw [show ('\n' :: intercalateNL (gs' ++ [g])) = ['\n'] ++ intercalateNL (gs' ++ [g]) from rfl]
    rw [List.getLast?_append, ih, hy]
    rfl

theorem intercalateNL_getLast_of_getLast (gs : List (List Char)) (g : List Char)
    (hg : gs.getLast? = some g) (hne : g ≠ []) :
    (intercalateNL gs).getLast? = g.getLast? := by
  have hsplit := List.dropLast_append_getLast? g hg
  rw [← hsplit]
  exact intercalateNL_getLast g hne gs.dropLast

theorem dropWhile_eq_self_of_head (p : Char → Bool) (cs : List Char)
    (h : ∀ c, cs.head? = some c → p c = false) : cs.dropWhile p = cs := by
  cases cs with
  | nil => rfl
  | cons c t =>
    rw [List.dropWhile_cons, h c rfl]
    simp

theorem stripL_eq_self (cs : List Char)
    (h1 : ∀ c, cs.head? = some c → isPySpaceChar c = false)
    (h2 : ∀ c, cs.getLast? = some c → isPySpaceChar c = false) : stripL cs = cs := by
  unfold stripL
  rw [dropWhile_eq_self_of_head _ _ h1]
  rw [dropWhile_eq_self_of_head _ _ (fun c hc => h2 c (by rwa [List.head?_reverse] at hc))]
  exact List.reverse_reverse cs

theorem mapMk_data (l : List String) : l.map (fun s => (⟨s.data⟩ : String)) = l := by
  induction l with
  | nil => rfl
  | cons s t ih => rw [List.map_cons, ih]

theorem intercalateNL_mem : ∀ (gs : List (List Char)) (c : Char), c ∈ intercalateNL gs →
    c = '\n' ∨ ∃ g ∈ gs, c ∈ g := by
  intro gs
  induction gs with
  | nil => intro c hc; cases hc
  | cons g gs ih =>
    intro c hc
    cases gs with
    | nil => exact Or.inr ⟨g, List.mem_cons_self g [], hc⟩
    | cons g' gs' =>
      simp only [intercalateNL] at hc
      rcases List.mem_append.1 hc with h | h
      · exact Or.inr ⟨g, List.mem_cons_self _ _, h⟩
      · rcases List.mem_cons.1 h with h | h
        · exact Or.inl h
        · rcases ih c h with h | ⟨x, hx, hcx⟩
          · exact Or.inl h
          · exact Or.inr ⟨x, List.mem_cons_of_mem g hx, hcx⟩

theorem isPrefixOf_self_append (l r : List Char) : l.isPrefixOf (l ++ r) = true := by
  induction l with
  | nil => cases r <;> rfl
  | cons a t ih =>
    simp only [List.cons_append, List.isPrefixOf, beq_self_eq_true, Bool.true_and]
    exact ih

theorem replaceFirstL_of_lit (pat repl rest : List Char) (h : pat ≠ []) :
    replaceFirstL pat repl (pat ++ rest) = repl ++ rest := by
  cases pat with
  | nil => exact absurd rfl h
  | cons a pa =>
    show replaceFirstL (a :: pa) repl (a :: (pa ++ rest)) = repl ++ rest
    simp only [replaceFirstL]
    have h2 : a :: (pa ++ rest) = (a :: pa) ++ rest := rfl
    rw [h2, if_pos (isPrefixOf_self_append (a :: pa) rest), List.drop_left]

theorem pyReplaceFirst_lit (p : String) :
    pyReplaceFirst ("Would remove " ++ p) "Would remove " "" = p := by
  unfold pyReplaceFirst
  rw [String.data_append, replaceFirstL_of_lit _ _ _ (by decide)]
  rfl

theorem parseCleanLine_lit (git_repo p : String) :
    parseCleanLine git_repo ("Would remove " ++ p) = pyJoin git_repo (pyRstripSlash p) := by
  unfold parseCleanLine
  rw [pyReplaceFirst_lit]

/-- C1: evaluation of one sync pass over the spec scenario (watched root
`/work/app`, nested repo `/work/app/lib`, ignored directory `build` and
ignored file `out.log`, empty stored list).  The pass persists only
`/work/app/lib/out.log` with `changed = true`: the two directory-derived
patterns are appended to the loop's folder-pattern accumulator, a local
that is never written back, so the stored list does not receive them —
refuting the claimed stored set `{P, P + "/*", Q}`. -/
theorem dir_patterns_dropped_sync_eval :
    update_file_exclude_patterns envScenario [] = .ok (["/work/app/lib/out.log"], true) ∧
    processPaths envScenario ["/work/app/lib/build", "/work/app/lib/out.log"] ([], []) =
      .ok (["/work/app/lib/out.log"], ["/work/app/lib/build", "/work/app/lib/build/*"]) ∧
    all_ignored_paths envScenario = .ok ["/work/app/lib/build", "/work/app/lib/out.log"] :=
  ⟨rfl, rfl, rfl⟩

/-- C5: evaluation with two watched roots `/repo/a` and `/repo/b` that
both ascend to the enclosing repository `/repo`.  The union contains each
ignored path once (deduplication across roots works), and the persisted
list holds the ignored file exactly once; but the ignored directory
`/repo/build` appears zero times, not once, because directory-derived
patterns go to the discarded folder-pattern local. -/
theorem shared_enclosing_repo_eval :
    all_ignored_paths envTwoRoots = .ok ["/repo/build", "/repo/out.log"] ∧
    update_file_exclude_patterns envTwoRoots [] = .ok (["/repo/out.log"], true) ∧
    (["/repo/out.log"] : List String).count "/repo/out.log" = 1 ∧
    (["/repo/out.log"] : List String).count "/repo/build" = 0 :=
  ⟨rfl, rfl, rfl, rfl⟩

/-- C9: with stored list `["/r/q"]` and ignored files `/r/q` and `/r/s`,
the writing pass appends `/r/q` again even though an exact duplicate is
already stored, so the persisted ordered list contains `/r/q` twice;
uniqueness holds only under the set comparison used for change
detection. -/
theorem duplicate_pattern_appended :
    update_file_exclude_patterns envDup ["/r/q"] = .ok (["/r/q", "/r/q", "/r/s"], true) ∧
    (["/r/q", "/r/q", "/r/s"] : List String).count "/r/q" = 2 :=
  ⟨rfl, rfl⟩

/-- C2 counterexample: with the `git` executable absent and one open
folder, the synchronisation pass does not complete with `changed = false`
— the `subprocess.call` inside `is_in_git_repo` raises `OSError` and the
exception propagates out of the pass, refuting "without any exception
ever propagating". -/
theorem git_missing_raises :
    update_file_exclude_patterns envNoGit [] = .error "OSError: git executable not found" ∧
    is_in_git_repo envNoGit "/p" = .error "OSError: git executable not found" :=
  ⟨rfl, rfl⟩

/-- C4 counterexample: on a tree whose `.git` directory contains `x` with
its own `.git` marker, `find_git_repos` reports `/r/.git/x` as well —
`os.walk` does descend into the marker subdirectory — whereas the walk
the claim describes (never descending into the marker) yields only
`/r`. -/
theorem walk_descends_into_marker :
    find_git_repos fsNestedMarker "/r" = ["/r", "/r/.git/x"] ∧
    find_git_repos_spec fsNestedMarker "/r" = ["/r"] ∧
    (["/r", "/r/.git/x"] : List String) ≠ ["/r"] :=
  ⟨rfl, rfl, by decide⟩

/-- C7 counterexample: on output consisting of the single invalid byte
`0xff`, the code decodes with `errors='ignore'` (the byte is dropped,
the output becomes empty, the result is the empty set), while the
claimed replace policy would produce the path `U+FFFD` resolved against
the repository — the two disagree, refuting "invalid bytes replaced". -/
theorem decode_policy_counterexample :
    repo_ignored_paths envBadByte "/repo" = .ok [] ∧
    repo_ignored_paths_replace envBadByte "/repo" = .ok ["/repo/�"] ∧
    ([] : List String) ≠ ["/repo/�"] :=
  ⟨rfl, rfl, by decide⟩

/-- C10: per-line parsing removes only the first occurrence of the
literal `"Would remove "`: for every line of the form
`"Would remove " ++ p`, the path part `p` survives verbatim — any later
occurrence of the literal inside `p` is preserved in the resulting
absolute path — as the concrete second conjunct illustrates. -/
theorem clean_line_first_occurrence_only :
    (∀ git_repo p : String, parseCleanLine git_repo ("Would remove " ++ p) =
        pyJoin git_repo (pyRstripSlash p)) ∧
    parseCleanLine "/r" "Would remove a/Would remove b.txt" = "/r/a/Would remove b.txt" :=
  ⟨parseCleanLine_lit, rfl⟩

/-- C3: the synchroniser is idempotent — whenever a pass over a fixed
environment completes with stored list `s₁`, a second pass over the same
environment (unchanged filesystem and subprocess behaviour) completes
with the byte-for-byte identical stored list `s₁` and reports
`changed = false`, performing no persisted write. -/
theorem sync_idempotent (env : Env) (s₀ s₁ : List String) (c₁ : Bool)
    (h : update_file_exclude_patterns env s₀ = .ok (s₁, c₁)) :
    update_file_exclude_patterns env s₁ = .ok (s₁, false) := by
  cases hA : all_ignored_paths env with
  | error e => rw [update_of_err env s₀ e hA] at h; cases h
  | ok paths =>
    cases hP : processPaths env paths ([], []) with
    | error e => rw [update_of_perr env s₀ paths e hA hP] at h; cases h
    | ok r =>
      obtain ⟨df, dfo⟩ := r
      rw [update_of_ok env s₀ paths df dfo hA hP] at h
      rw [update_of_ok env s₁ paths df dfo hA hP]
      by_cases hEq : pySetEq (s₀ ++ df) s₀ = true
      · rw [hEq] at h
        simp only [Bool.not_true, Bool.false_eq_true, if_false, Except.ok.injEq, Prod.mk.injEq] at h
        obtain ⟨rfl, rfl⟩ := h
        rw [hEq]
        simp
      · rw [Bool.not_eq_true] at hEq
        rw [hEq] at h
        simp only [Bool.not_false, if_true, Except.ok.injEq, Prod.mk.injEq] at h
        obtain ⟨rfl, rfl⟩ := h
        have hsub : pySetEq ((s₀ ++ df) ++ df) (s₀ ++ df) = true :=
          pySetEq_append_of_subset _ _ (fun x hx => List.mem_append_right _ hx)
        rw [hsub]
        simp

/-- C6: a pass only ever appends: the resulting stored list extends the
pre-existing entries, which are retained unchanged in their original
order regardless of `changed`; when `changed = false` nothing moves, and
when a write occurs the persisted list is exactly the pre-existing
entries followed by the newly derived file patterns in discovery
order. -/
theorem sync_preserves_existing_order (env : Env) (s₀ s₁ : List String) (c : Bool)
    (ps : List String)
    (hA : all_ignored_paths env = .ok ps)
    (h : update_file_exclude_patterns env s₀ = .ok (s₁, c)) :
    (∃ d, s₁ = s₀ ++ d) ∧ (c = false → s₁ = s₀) ∧
      (c = true →
        s₁ = s₀ ++ (ps.filter (fun p => !decide (p ∈ env.fs))).map (sublimeFormat env.isWindows)) := by
  cases hP : processPaths env ps ([], []) with
  | error e => rw [update_of_perr env s₀ ps e hA hP] at h; cases h
  | ok r =>
    obtain ⟨df, dfo⟩ := r
    rw [update_of_ok env s₀ ps df dfo hA hP] at h
    have hdf := processPaths_files_eq env ps df dfo hP
    by_cases hEq : pySetEq (s₀ ++ df) s₀ = true
    · rw [hEq] at h
      simp only [Bool.not_true, Bool.false_eq_true, if_false, Except.ok.injEq, Prod.mk.injEq] at h
      obtain ⟨rfl, rfl⟩ := h
      refine ⟨⟨[], by simp⟩, ?_, ?_⟩
      · intro _
        rfl
      · intro hc
        cases hc
    · rw [Bool.not_eq_true] at hEq
      rw [hEq] at h
      simp only [Bool.not_false, if_true, Except.ok.injEq, Prod.mk.injEq] at h
      obtain ⟨rfl, rfl⟩ := h
      refine ⟨⟨df, rfl⟩, ?_, ?_⟩
      · intro hc
        cases hc
      · intro _
        rw [hdf]

/-- C2 amended: when the executable spawns but every query exits nonzero
(`is-inside-work-tree` false everywhere) and no marker directory exists
under the watched roots, the pass completes with `changed = false`, the
global ignored set is empty, and empty `git clean` output enumerates to
the empty set; but when the executable is absent and at least one folder
is open, the pass raises (`OSError` propagates). -/
theorem tool_failure_policy :
    (∀ (env : Env) (stored : List String), env.gitAvailable = false → env.openFolders ≠ [] →
      update_file_exclude_patterns env stored = .error "OSError: git executable not found") ∧
    (∀ (env : Env) (stored : List String), env.gitAvailable = true →
      (∀ f, env.insideWorkTree f = false) →
      (∀ f ∈ pyDedup env.openFolders, find_git_repos env.fs f = []) →
      all_ignored_paths env = .ok [] ∧
      update_file_exclude_patterns env stored = .ok (stored, false)) ∧
    (∀ (env : Env) (repo : String), env.gitAvailable = true → env.cleanOut repo = [] →
      repo_ignored_paths env repo = .ok []) := by
  refine ⟨?_, ?_, ?_⟩
  · intro env stored hg hne
    obtain ⟨f, rest, hfr⟩ : ∃ f rest, pyDedup env.openFolders = f :: rest := by
      cases hD : pyDedup env.openFolders with
      | nil => exact absurd hD (pyDedup_ne_nil _ hne)
      | cons f rest => exact ⟨f, rest, rfl⟩
    have hA : all_ignored_paths env = .error "OSError: git executable not found" := by
      unfold all_ignored_paths
      rw [hfr]
      exact unionFolders_err_head env f rest [] _ (folder_ignored_err env f hg)
    exact update_of_err env stored _ hA
  · intro env stored hg hw hr
    have hA : all_ignored_paths env = .ok [] := by
      unfold all_ignored_paths
      exact unionFolders_empty env _ []
        (fun f hf => folder_ignored_empty env f hg (hw f) (hr f hf))
    refine ⟨hA, ?_⟩
    have hP : processPaths env [] ([], []) = .ok ([], []) := rfl
    rw [update_of_ok env stored [] [] [] hA hP, List.append_nil, pySetEq_refl]
    rfl
  · intro env repo hg hb
    unfold repo_ignored_paths
    rw [if_pos hg, hb]
    rfl

/-- C4 amended: `find_git_repos` returns exactly the existing directories
at or under the folder that directly contain a `.git` subdirectory —
including directories lying inside a marker directory, since the walk is
not pruned; nested repositories are reported independently. -/
theorem find_git_repos_characterization :
    ∀ (fs : List String) (folder d : String),
      d ∈ find_git_repos fs folder ↔
        (d ∈ fs ∧ (d = folder ∨ pyStartsWith d (folder ++ "/") = true) ∧ (d ++ "/.git") ∈ fs) := by
  intro fs folder d
  simp only [find_git_repos, osWalkRoots, List.mem_filter, Bool.or_eq_true, beq_iff_eq,
    decide_eq_true_eq]
  tauto

/-- C8: the consumer-format normalizer is the identity on POSIX; on the
drive-letter platform it maps every path whose second character is `:`
to the same path with the colon removed and every backslash replaced by
a forward slash (`C:\repo\build` becomes `C/repo/build`), and fails
fast (assert or index error) on any input without a drive separator as
its second character. -/
theorem normalizer_spec :
    (∀ (env : Env) (p : String), env.isWindows = false → normalizeStep env p = .ok p) ∧
    (∀ (env : Env) (p : String) (c0 : Char) (rest : List Char), env.isWindows = true →
      p.data = c0 :: ':' :: rest →
      normalizeStep env p = .ok ⟨(c0 :: rest).map (fun c => if c = '\\' then '/' else c)⟩) ∧
    (∀ (env : Env) (p : String) (c0 c1 : Char) (rest : List Char), env.isWindows = true →
      p.data = c0 :: c1 :: rest → c1 ≠ ':' →
      normalizeStep env p = .error "AssertionError") ∧
    (∀ (env : Env) (p : String), env.isWindows = true → p.data.length < 2 →
      normalizeStep env p = .error "IndexError: string index out of range") ∧
    windows_path_to_sublime_path "C:\\repo\\build" = .ok "C/repo/build" := by
  refine ⟨?_, ?_, ?_, ?_, rfl⟩
  · intro env p hw
    unfold normalizeStep
    rw [hw]
    rfl
  · intro env p c0 rest hw hd
    unfold normalizeStep windows_path_to_sublime_path
    rw [hw, hd]
    simp
  · intro env p c0 c1 rest hw hd hc
    unfold normalizeStep windows_path_to_sublime_path
    rw [hw, hd]
    simp [hc]
  · intro env p hw hl
    unfold normalizeStep windows_path_to_sublime_path
    rw [hw]
    cases hd : p.data with
    | nil => rfl
    | cons c t =>
      cases t with
      | nil => rfl
      | cons c1 t1 =>
        rw [hd] at hl
        simp at hl
        omega

/-- C7 amended: `repo_ignored_paths` never fails once the subprocess
spawns (any byte sequence decodes, invalid bytes dropped); whitespace-only
or empty decoded output yields the empty set; and for well-formed output
listing paths line by line, the fixed literal is stripped from each line,
trailing separators are stripped, and each path is resolved against the
repository path. -/
theorem clean_output_parsing :
    (∀ (env : Env) (repo : String), env.gitAvailable = true →
      ∃ l, repo_ignored_paths env repo = .ok l) ∧
    (∀ (env : Env) (repo : String), env.gitAvailable = true →
      (utf8DecodeWith [] (env.cleanOut repo)).all isPySpaceChar = true →
      repo_ignored_paths env repo = .ok []) ∧
    (∀ (env : Env) (repo : String) (ps : List String), env.gitAvailable = true →
      ps ≠ [] →
      (∀ p ∈ ps, p.data ≠ [] ∧
        ∀ c ∈ p.data, c.toNat < 0x80 ∧ c ≠ '\n' ∧ isPySpaceChar c = false) →
      env.cleanOut repo = asciiEncode (joinLines (ps.map (fun p => "Would remove " ++ p))) →
      repo_ignored_paths env repo = .ok (ps.map (fun p => pyJoin repo (pyRstripSlash p)))) := by
  refine ⟨?_, ?_, ?_⟩
  · intro env repo hg
    simp only [repo_ignored_paths]
    rw [if_pos hg]
    by_cases h : (pyIsSpace (utf8DecodeIgnore (env.cleanOut repo)) ||
        utf8DecodeIgnore (env.cleanOut repo) == "") = true
    · rw [if_pos h]; exact ⟨[], rfl⟩
    · rw [if_neg h]; exact ⟨_, rfl⟩
  · intro env repo hg hall
    simp only [repo_ignored_paths]
    rw [if_pos hg]
    have hcond : (pyIsSpace (utf8DecodeIgnore (env.cleanOut repo)) ||
        utf8DecodeIgnore (env.cleanOut repo) == "") = true := by
      unfold utf8DecodeIgnore pyIsSpace
      cases hdec : utf8DecodeWith [] (env.cleanOut repo) with
      | nil => rfl
      | cons c t =>
        rw [hdec] at hall
        simp [hall]
    rw [if_pos hcond]
  · intro env repo ps hg hne hps hout
    simp only [repo_ignored_paths]
    rw [if_pos hg, hout]
    have hlitA : ∀ c ∈ ("Would remove " : String).data, c.toNat < 0x80 := by decide
    have hlitN : ('\n' : Char) ∉ ("Would remove " : String).data := by decide
    -- every character of the joined text is ASCII
    have hascii : ∀ c ∈ (joinLines (ps.map (fun p => "Would remove " ++ p))).data,
        c.toNat < 0x80 := by
      intro c hc
      rcases intercalateNL_mem _ c hc with h | ⟨g, hg1, hg2⟩
      · rw [h]; decide
      · obtain ⟨l, hl1, hl2⟩ := List.mem_map.1 hg1
        obtain ⟨p, hp1, hp2⟩ := List.mem_map.1 hl1
        rw [← hl2, ← hp2, String.data_append] at hg2
        rcases List.mem_append.1 hg2 with h | h
        · exact hlitA c h
        · exact ((hps p hp1).2 c h).1
    -- decoding the ASCII bytes gives the text back
    have hdec : utf8DecodeIgnore (asciiEncode (joinLines (ps.map (fun p => "Would remove " ++ p)))) =
        joinLines (ps.map (fun p => "Would remove " ++ p)) := by
      show (⟨utf8DecodeWith []
        ((joinLines (ps.map (fun p => "Would remove " ++ p))).data.map Char.toNat)⟩ : String) = _
      rw [utf8DecodeWith_ascii [] _ hascii]
    rw [hdec]
    -- the text starts with the letter W
    obtain ⟨p₀, ps', rfl⟩ : ∃ p₀ ps', ps = p₀ :: ps' := by
      cases ps with
      | nil => exact absurd rfl hne
      | cons p₀ ps' => exact ⟨p₀, ps', rfl⟩
    have hg₀ : ("Would remove " ++ p₀).data = 'W' :: ("ould remove ".data ++ p₀.data) := by
      rw [String.data_append]
      rfl
    obtain ⟨u, hu⟩ := intercalateNL_cons_head ("Would remove " ++ p₀).data
      ((ps'.map (fun p => "Would remove " ++ p)).map String.data) 'W'
      ("ould remove ".data ++ p₀.data) hg₀
    have hTdata : (joinLines ((p₀ :: ps').map (fun p => "Would remove " ++ p))).data =
        'W' :: u := hu
    -- the whitespace test and the emptiness test both fail
    have hfalse : (pyIsSpace (joinLines ((p₀ :: ps').map (fun p => "Would remove " ++ p))) ||
        joinLines ((p₀ :: ps').map (fun p => "Would remove " ++ p)) == "") = false := by
      rw [Bool.or_eq_false_iff]
      constructor
      · unfold pyIsSpace
        rw [hTdata]
        simp [isPySpaceChar]
      · rw [beq_eq_false_iff_ne]
        intro hT
        rw [hT] at hTdata
        cases hTdata
    rw [if_neg (by rw [hfalse]; exact Bool.false_ne_true)]
    -- the last character of the text is the last character of the last path
    have hlast : ∀ c, (joinLines ((p₀ :: ps').map
          (fun p => "Would remove " ++ p))).data.getLast? = some c →
        isPySpaceChar c = false := by
      intro c hc
      have hnn : (p₀ :: ps') ≠ [] := by simp
      have hlastne : ((p₀ :: ps').getLast hnn).data ≠ [] :=
        (hps _ (List.getLast_mem hnn)).1
      have hgl : ("Would remove " ++ (p₀ :: ps').getLast hnn).data ≠ [] := by
        rw [String.data_append]
        simp
      have hgs : (((p₀ :: ps').map (fun p => "Would remove " ++ p)).map String.data).getLast? =
          some ("Would remove " ++ (p₀ :: ps').getLast hnn).data := by
        rw [List.getLast?_map, List.getLast?_map, List.getLast?_eq_getLast _ hnn]
        rfl
      have hT : (joinLines ((p₀ :: ps').map (fun p => "Would remove " ++ p))).data.getLast? =
          ("Would remove " ++ (p₀ :: ps').getLast hnn).data.getLast? :=
        intercalateNL_getLast_of_getLast _ _ hgs hgl
      rw [hT, String.data_append, List.getLast?_append] at hc
      obtain ⟨y, hy⟩ : ∃ y, ((p₀ :: ps').getLast hnn).data.getLast? = some y := by
        cases hgl2 : ((p₀ :: ps').getLast hnn).data.getLast? with
        | none => exact absurd (List.getLast?_eq_none_iff.1 hgl2) hlastne
        | some y => exact ⟨y, rfl⟩
      rw [hy] at hc
      simp only [Option.or_some] at hc
      injection hc with hc
      subst hc
      exact ((hps _ (List.getLast_mem hnn)).2 y (List.mem_of_getLast?_eq_some hy)).2.2
    -- stripping the text is the identity
    have hstrip : pyStrip (joinLines ((p₀ :: ps').map (fun p => "Would remove " ++ p))) =
        joinLines ((p₀ :: ps').map (fun p => "Would remove " ++ p)) := by
      show (⟨stripL (joinLines ((p₀ :: ps').map (fun p => "Would remove " ++ p))).data⟩ :
        String) = _
      rw [stripL_eq_self _ ?_ hlast]
      · intro c hc
        rw [hTdata, List.head?_cons] at hc
        injection hc with hc
        subst hc
        decide
    rw [hstrip]
    -- splitting on newlines recovers the lines
    have hnonl : ∀ g ∈ ((p₀ :: ps').map (fun p => "Would remove " ++ p)).map String.data,
        '\n' ∉ g := by
      intro g hg
      obtain ⟨l, hl1, hl2⟩ := List.mem_map.1 hg
      obtain ⟨p, hp1, hp2⟩ := List.mem_map.1 hl1
      rw [← hl2, ← hp2, String.data_append]
      intro hmem
      rcases List.mem_append.1 hmem with h | h
      · exact hlitN h
      · exact ((hps p hp1).2 _ h).2.1 rfl
    have hsplitNL : pySplitChar '\n'
        (joinLines ((p₀ :: ps').map (fun p => "Would remove " ++ p))) =
        (p₀ :: ps').map (fun p => "Would remove " ++ p) := by
      show (splitOnCharL '\n' (intercalateNL (((p₀ :: ps').map
        (fun p => "Would remove " ++ p)).map String.data))).map (fun g => (⟨g⟩ : String)) = _
      rw [splitOnCharL_intercalateNL _ (by simp) hnonl]
      rw [List.map_map]
      exact mapMk_data _
    rw [hsplitNL]
    rw [List.map_map]
    exact congrArg Except.ok (List.map_congr_left
      (fun p _ => parseCleanLine_lit repo p))

/-- C3 witness: a concrete first pass from `["old"]` writes
`["old", "/r/a.log"]`; the second pass returns it unchanged with
`changed = false`. -/
theorem sync_idempotent_witness :
    update_file_exclude_patterns envOneFile ["old", "/r/a.log"] =
      .ok (["old", "/r/a.log"], false) :=
  sync_idempotent envOneFile ["old"] ["old", "/r/a.log"] true rfl

/-- C6 witness: the concrete writing pass appends the derived file
pattern after the pre-existing entry. -/
theorem sync_preserves_existing_order_witness :
    update_file_exclude_patterns envOneFile ["old"] = .ok (["old", "/r/a.log"], true) ∧
    ["old", "/r/a.log"] = ["old"] ++
      ((["/r/a.log"] : List String).filter (fun p => !decide (p ∈ envOneFile.fs))).map
        (sublimeFormat envOneFile.isWindows) :=
  ⟨rfl, (sync_preserves_existing_order envOneFile ["old"] ["old", "/r/a.log"] true
    ["/r/a.log"] rfl rfl).2.2 rfl⟩

/-- C2 witness: the amended policy evaluated at concrete environments —
absent executable raises; all-queries-fail completes unchanged; empty
clean output enumerates to the empty set. -/
theorem tool_failure_policy_witness :
    update_file_exclude_patterns envNoGit ["x"] =
      .error "OSError: git executable not found" ∧
    (all_ignored_paths envGitFails = .ok [] ∧
      update_file_exclude_patterns envGitFails ["keep"] = .ok (["keep"], false)) ∧
    repo_ignored_paths envGitFails "/q" = .ok [] :=
  ⟨tool_failure_policy.1 envNoGit ["x"] rfl (by decide),
   tool_failure_policy.2.1 envGitFails ["keep"] rfl (fun f => rfl) (by decide),
   tool_failure_policy.2.2 envGitFails "/q" rfl rfl⟩

/-- C4 witness: the membership characterization evaluated at the nested
marker directory. -/
theorem find_git_repos_characterization_witness :
    ("/r/.git/x" ∈ find_git_repos fsNestedMarker "/r") ↔
      ("/r/.git/x" ∈ fsNestedMarker ∧
        ("/r/.git/x" = "/r" ∨ pyStartsWith "/r/.git/x" ("/r" ++ "/") = true) ∧
        ("/r/.git/x" ++ "/.git") ∈ fsNestedMarker) :=
  find_git_repos_characterization fsNestedMarker "/r" "/r/.git/x"

/-- C8 witness: the normalizer evaluated on concrete POSIX and Windows
inputs, including the two fail-fast shapes. -/
theorem normalizer_spec_witness :
    normalizeStep envPosix "/home/user/repo/build" = .ok "/home/user/repo/build" ∧
    normalizeStep envWin "C:\\repo\\build" = .ok "C/repo/build" ∧
    normalizeStep envWin "XY" = .error "AssertionError" ∧
    normalizeStep envWin "A" = .error "IndexError: string index out of range" := by
  refine ⟨normalizer_spec.1 envPosix _ rfl, ?_, ?_, ?_⟩
  · have h := normalizer_spec.2.1 envWin "C:\\repo\\build" 'C' "\\repo\\build".data rfl rfl
    rw [h]
    rfl
  · exact normalizer_spec.2.2.1 envWin "XY" 'X' 'Y' [] rfl rfl (by decide)
  · exact normalizer_spec.2.2.2.1 envWin "A" rfl (by decide)

/-- C7 witness: the parsing pipeline evaluated on a concrete two-line
clean output listing a directory (with trailing separator) and a file. -/
theorem clean_output_parsing_witness :
    repo_ignored_paths envTwoLines "/r" =
      .ok ((["build/", "out.log"] : List String).map
        (fun p => pyJoin "/r" (pyRstripSlash p))) :=
  clean_output_parsing.2.2 envTwoLines "/r" ["build/", "out.log"] rfl (by decide)
    (by decide) rfl

/-- C10 witness: the general lemma evaluated on a line whose path part
contains the literal again. -/
theorem clean_line_first_occurrence_only_witness :
    parseCleanLine "/g" ("Would remove " ++ "x/Would remove y") =
      pyJoin "/g" (pyRstripSlash "x/Would remove y") :=
  clean_line_first_occurrence_only.1 "/g" "x/Would remove y"
